import Mathlib

/-!
Shallow embedding of the HTTP server in `src/main.rs` (a codecrafters
HTTP server written in Rust on tokio + nom), together with theorems
checking the natural-language specification against it.

Modelling conventions:
* Rust `String` becomes Lean `String`; raw byte streams become `List Nat`
  (each element a byte value).
* The nom parser combinators used by the source (`take_while1`, `space0`,
  `crlf`, `tag`, `many1`, `pair`, `terminated`) are embedded as plain
  functions on `List Char`; nom's rich error type is collapsed to a single
  error constructor, since the source converts the error to `anyhow` and
  never inspects it.
* `HashMap` is embedded as an association list built in insertion order;
  `hashMapGet` returns the value of the last insertion for a key, which is
  exactly the `collect`-into-`HashMap` behaviour (later duplicates win).
* The `panic!()` in `parse_http_request` is a distinct outcome constructor,
  since Lean functions cannot abort.
* Async I/O is embedded by explicit state passing: the TCP stream is a byte
  list consumed from the front, and the filesystem is a record of pure
  functions passed to the router.
-/

namespace HttpServerModel

/-- Rust `char::is_whitespace` (Unicode `White_Space` property),
expressed on the code point. -/
def rustIsWhitespace (c : Char) : Bool :=
  let n := c.toNat
  n == 0x20 || n == 0x09 || n == 0x0A || n == 0x0B || n == 0x0C || n == 0x0D ||
  n == 0x85 || n == 0xA0 || n == 0x1680 ||
  (0x2000 ≤ n && n ≤ 0x200A) || n == 0x2028 || n == 0x2029 ||
  n == 0x202F || n == 0x205F || n == 0x3000

/-- `line.trim().is_empty()` in Rust: true iff every char is whitespace. -/
def trimIsEmpty (s : String) : Bool :=
  s.toList.all rustIsWhitespace

/-- UTF-8 encoding of one scalar value (arithmetic form of the standard
bit-level definition; `Char` guarantees a valid scalar value). -/
def charUtf8Bytes (c : Char) : List Nat :=
  let n := c.toNat
  if n < 0x80 then [n]
  else if n < 0x800 then [0xC0 + n / 64, 0x80 + n % 64]
  else if n < 0x10000 then [0xE0 + n / 4096, 0x80 + (n / 64) % 64, 0x80 + n % 64]
  else [0xF0 + n / 262144, 0x80 + (n / 4096) % 64, 0x80 + (n / 64) % 64, 0x80 + n % 64]

/-- UTF-8 encoding of a char list. -/
def utf8EncodeList (cs : List Char) : List Nat :=
  cs.foldr (fun c acc => charUtf8Bytes c ++ acc) []

/-- UTF-8 encoding of a string (Rust `str::as_bytes`). -/
def utf8Encode (s : String) : List Nat :=
  utf8EncodeList s.toList

/-- Decode one UTF-8 sequence from the front of a byte list, with the
validation Rust's `String::from_utf8` performs: continuation bytes in
`0x80..0xBF`, no overlong forms, no surrogates, max `0x10FFFF`. -/
def utf8DecodeStep : List Nat → Option (Char × List Nat)
  | [] => none
  | b0 :: rest =>
    if hv0 : Nat.isValidChar b0 ∧ b0 < 0x80 then
      some (Char.ofNatAux b0 hv0.1, rest)
    else if b0 < 0xC2 then none
    else if b0 ≤ 0xDF then
      match rest with
      | b1 :: rest1 =>
        if 0x80 ≤ b1 ∧ b1 ≤ 0xBF then
          let n := (b0 - 0xC0) * 64 + (b1 - 0x80)
          if hv : Nat.isValidChar n then some (Char.ofNatAux n hv, rest1)
          else none
        else none
      | [] => none
    else if b0 ≤ 0xEF then
      match rest with
      | b1 :: b2 :: rest2 =>
        let lo1 := if b0 == 0xE0 then 0xA0 else 0x80
        let hi1 := if b0 == 0xED then 0x9F else 0xBF
        if lo1 ≤ b1 ∧ b1 ≤ hi1 ∧ 0x80 ≤ b2 ∧ b2 ≤ 0xBF then
          let n := (b0 - 0xE0) * 4096 + (b1 - 0x80) * 64 + (b2 - 0x80)
          if hv : Nat.isValidChar n then some (Char.ofNatAux n hv, rest2)
          else none
        else none
      | _ => none
    else if b0 ≤ 0xF4 then
      match rest with
      | b1 :: b2 :: b3 :: rest3 =>
        let lo1 := if b0 == 0xF0 then 0x90 else 0x80
        let hi1 := if b0 == 0xF4 then 0x8F else 0xBF
        if lo1 ≤ b1 ∧ b1 ≤ hi1 ∧ 0x80 ≤ b2 ∧ b2 ≤ 0xBF ∧ 0x80 ≤ b3 ∧ b3 ≤ 0xBF then
          let n := (b0 - 0xF0) * 262144 + (b1 - 0x80) * 4096 + (b2 - 0x80) * 64 + (b3 - 0x80)
          if hv : Nat.isValidChar n then some (Char.ofNatAux n hv, rest3)
          else none
        else none
      | _ => none
    else none

/-- Fuelled UTF-8 decoding loop; fuel bounds the number of decoded chars. -/
def utf8DecodeGo : Nat → List Nat → Option (List Char)
  | _, [] => some []
  | 0, _ :: _ => none
  | fuel + 1, bs =>
    match utf8DecodeStep bs with
    | none => none
    | some (c, rest) => (utf8DecodeGo fuel rest).map (fun cs => c :: cs)

/-- Rust `String::from_utf8` as a total function: `some` of the decoded
chars when the bytes are valid UTF-8, `none` otherwise. -/
def utf8Decode (bs : List Nat) : Option (List Char) :=
  utf8DecodeGo bs.length bs

/-- `enum Content` from the source (`Empty | Text | OctetStream`); both
payload variants carry a Rust `String`. -/
inductive Content
  | empty
  | text (s : String)
  | octetStream (s : String)
deriving DecidableEq, Repr

/-- `enum HttpStatusCode` from the source. -/
inductive HttpStatusCode
  | ok200
  | created201
  | notFound404
  | internalError500
deriving DecidableEq, Repr

/-- `enum HttpMethod` from the source. -/
inductive HttpMethod
  | get
  | post
deriving DecidableEq, Repr

/-- `struct HttpRequest` from the source. The `HashMap` of headers is kept
as the association list in parse order; lookups go through `hashMapGet`. -/
structure HttpRequest where
  method : HttpMethod
  route : String
  version : String
  headers : List (String × String)
  body : Option String
deriving DecidableEq, Repr

/-- `struct HttpResponseBuilder` from the source. -/
structure HttpResponseBuilder where
  status_code : HttpStatusCode
  version : String
  content : Content
deriving DecidableEq, Repr

/-- `HashMap::get` after `collect` from an iterator of pairs: the last
inserted value for the key wins, `none` when the key was never inserted. -/
def hashMapGet (l : List (String × String)) (k : String) : Option String :=
  l.foldl (fun acc p => if p.1 = k then some p.2 else acc) none

/-- Result of an embedded nom parser: the remaining input and the parsed
value, or a parse error (the source never inspects the nom error detail,
so a single error constructor suffices). -/
inductive NomResult (α : Type) where
  | ok (rest : List Char) (val : α)
  | err
deriving DecidableEq, Repr

/-- nom `take_while1 p`: longest nonempty prefix satisfying `p`. -/
def takeWhile1 (p : Char → Bool) (input : List Char) : NomResult (List Char) :=
  match input.takeWhile p with
  | [] => .err
  | taken => .ok (input.drop taken.length) taken

/-- `non_whitespace` from the source: `take_while1(|c| !c.is_whitespace())`. -/
def non_whitespace (input : List Char) : NomResult (List Char) :=
  takeWhile1 (fun c => !rustIsWhitespace c) input

/-- nom `space0`: consume zero or more spaces and tabs (never fails). -/
def space0 (input : List Char) : List Char :=
  input.dropWhile (fun c => c == ' ' || c == '\t')

/-- nom `tag t`: consume exactly the literal `t` or fail. -/
def tagChars (t : List Char) (input : List Char) : NomResult Unit :=
  if input.take t.length = t then .ok (input.drop t.length) () else .err

/-- `terminated(non_whitespace, space0)` as used for method and route. -/
def tokenSpace0 (input : List Char) : NomResult (List Char) :=
  match non_whitespace input with
  | .err => .err
  | .ok rest tok => .ok (space0 rest) tok

/-- One header parser from the source:
`pair(terminated(take_while1(|c| c != ':'), tag(": ")), terminated(non_whitespace, crlf))`. -/
def parse_header (input : List Char) : NomResult (String × String) :=
  match takeWhile1 (fun c => c != ':') input with
  | .err => .err
  | .ok r1 name =>
    match tagChars [':', ' '] r1 with
    | .err => .err
    | .ok r2 _ =>
      match non_whitespace r2 with
      | .err => .err
      | .ok r3 value =>
        match tagChars ['\r', '\n'] r3 with
        | .err => .err
        | .ok r4 _ => .ok r4 (String.mk name, String.mk value)

/-- The iteration of nom `many1` after its first success: keep applying
`parse_header` until it fails, returning the leftover input and the
collected headers.  Fuel bounds the iterations; each success consumes at
least one char, so fuel = input length is always enough. -/
def manyHeadersGo : Nat → List Char → List (String × String) →
    List Char × List (String × String)
  | 0, input, acc => (input, acc)
  | fuel + 1, input, acc =>
    match parse_header input with
    | .err => (input, acc)
    | .ok rest h => manyHeadersGo fuel rest (acc ++ [h])

/-- nom `many1(parse_header)`: fails when the first application fails,
otherwise collects greedily and stops at the first failure. -/
def many1_headers (input : List Char) : NomResult (List (String × String)) :=
  match parse_header input with
  | .err => .err
  | .ok rest h =>
    match manyHeadersGo rest.length rest [h] with
    | (left, hs) => .ok left hs

/-- Outcome of `parse_http_request`: success with leftover input, a nom
parse error, or the `panic!()` the source executes on a method token other
than `GET`/`POST`. -/
inductive ParseOutcome (α : Type) where
  | ok (rest : List Char) (val : α)
  | err
  | panic
deriving DecidableEq, Repr

/-- `parse_http_request` from the source: request line (three
whitespace-delimited tokens, the third terminated by CRLF), then
`many1` header lines; then the method token is matched, with `panic!()`
on anything other than `GET`/`POST`. -/
def parse_http_request (content : List Char) : ParseOutcome HttpRequest :=
  match tokenSpace0 content with
  | .err => .err
  | .ok i1 methodTok =>
    match tokenSpace0 i1 with
    | .err => .err
    | .ok i2 routeTok =>
      match non_whitespace i2 with
      | .err => .err
      | .ok i3 versionTok =>
        match tagChars ['\r', '\n'] i3 with
        | .err => .err
        | .ok i4 _ =>
          match many1_headers i4 with
          | .err => .err
          | .ok left hs =>
            if String.mk methodTok = "GET" then
              .ok left ⟨.get, String.mk routeTok, String.mk versionTok, hs, none⟩
            else if String.mk methodTok = "POST" then
              .ok left ⟨.post, String.mk routeTok, String.mk versionTok, hs, none⟩
            else
              .panic

/-- `BufReader::read_line` on a byte stream: take bytes up to and
including the first `0x0A`, or everything when no newline remains. -/
def readLineBytes : List Nat → List Nat × List Nat
  | [] => ([], [])
  | b :: rest =>
    if b = 10 then ([b], rest)
    else
      match readLineBytes rest with
      | (l, r) => (b :: l, r)

/-- The `while let Ok(n) = reader.read_line(..)` loop of `reader_request`:
accumulate lines into `request_content`, stopping at end of stream, at a
line that is not valid UTF-8 (read error exits the loop), or at a line
that trims to empty.  Each iteration consumes at least one byte, so fuel
equal to the stream length is always sufficient. -/
def readHeaderLoop : Nat → List Nat → String → String × List Nat
  | 0, stream, acc => (acc, stream)
  | fuel + 1, stream, acc =>
    match stream with
    | [] => (acc, [])
    | _ :: _ =>
      match readLineBytes stream with
      | (lineBytes, rest) =>
        match utf8Decode lineBytes with
        | none => (acc, rest)
        | some cs =>
          if trimIsEmpty (String.mk cs) then (acc, rest)
          else readHeaderLoop fuel rest (acc ++ String.mk cs)

/-- The header-block accumulation phase of `reader_request`. -/
def readHeaderBlock (stream : List Nat) : String × List Nat :=
  readHeaderLoop stream.length stream ""

/-- The error cases `reader_request` can surface (all become `anyhow`
errors in the source; the constructors record which `context` produced
them). -/
inductive ReaderError
  | parseError
  | invalidContentLength
  | truncatedBody
  | invalidBodyEncoding
deriving DecidableEq, Repr

/-- Outcome of `reader_request`: a request, an error returned to the
caller, or the panic inherited from `parse_http_request`. -/
inductive ReaderOutcome
  | ok (req : HttpRequest)
  | err (e : ReaderError)
  | panic
deriving DecidableEq, Repr

/-- Rust `str::parse::<usize>()`: optional leading `+`, then one or more
ASCII digits and nothing else. -/
def parseUsize (s : String) : Option Nat :=
  let ds := match s.toList with
    | '+' :: rest => rest
    | cs => cs
  if !ds.isEmpty && ds.all (fun c => c.isDigit) then
    some (ds.foldl (fun a c => a * 10 + (c.toNat - 48)) 0)
  else none

/-- The body phase of `reader_request` (source lines 104-122): look up
`Content-Length`, parse it, `read_exact` that many bytes, then decode
them with `String::from_utf8`.  Returns the body and the unread rest of
the stream. -/
def read_body (headers : List (String × String)) (rest : List Nat) :
    Except ReaderError (Option String × List Nat) :=
  match hashMapGet headers "Content-Length" with
  | none => .ok (none, rest)
  | some lenStr =>
    match parseUsize lenStr with
    | none => .error .invalidContentLength
    | some length =>
      if length ≤ rest.length then
        match utf8Decode (rest.take length) with
        | none => .error .invalidBodyEncoding
        | some cs => .ok (some (String.mk cs), rest.drop length)
      else .error .truncatedBody

/-- `reader_request` from the source: accumulate the header block,
parse it with `parse_http_request`, then read and decode the body. -/
def reader_request (stream : List Nat) : ReaderOutcome :=
  match readHeaderBlock stream with
  | (request_content, rest) =>
    match parse_http_request request_content.toList with
    | .panic => .panic
    | .err => .err .parseError
    | .ok _left req =>
      match read_body req.headers rest with
      | .error e => .err e
      | .ok (body, _) => .ok { req with body := body }

/-- The filesystem collaborator, as pure functions: `read path` is
`File::open` + `read` (`none` for an open failure, `some bytes` for the
raw file contents), `write path contents` is `File::create` +
`write_all` (`false` for an I/O failure). -/
structure Fs where
  read : String → Option (List Nat)
  write : String → String → Bool

/-- Worker for `splitOnSlash`: `acc` holds the current segment reversed. -/
def splitSlashGo : List Char → List Char → List String
  | [], acc => [String.mk acc.reverse]
  | c :: rest, acc =>
    if c = '/' then String.mk acc.reverse :: splitSlashGo rest []
    else splitSlashGo rest (c :: acc)

/-- Rust `str::split('/')` collected to a vector: segments between the
slashes, with empty segments kept (`""` for an empty input). -/
def splitOnSlash (s : String) : List String :=
  splitSlashGo s.toList []

/-- `Path::new(&directory).join(filename)`: an absolute `filename`
replaces the path, otherwise the components are joined with `/`
(no separator duplicated when the directory already ends in one). -/
def pathJoin (dir file : String) : String :=
  if file.toList.head? = some '/' then file
  else if dir.toList.getLast? = some '/' then dir ++ file
  else dir ++ "/" ++ file

/-- The errors `route_request` propagates to its caller: a POST to
`/files` with no body (`context("Error: got no content")`), or a
`File::create`/`write_all` failure. -/
inductive RouterError
  | missingBody
  | ioError
deriving DecidableEq, Repr

/-- `route_request` from the source: split the route on `/`, skip the
leading empty segment, and match `(method, segments)` against the fixed
rule set. -/
def route_request (request : HttpRequest) (directory : Option String) (fs : Fs) :
    Except RouterError HttpResponseBuilder :=
  match request.method, (splitOnSlash request.route).drop 1 with
  | .get, [""] =>
    .ok ⟨.ok200, request.version, .empty⟩
  | .get, "echo" :: val =>
    .ok ⟨.ok200, request.version, .text (String.intercalate "/" val)⟩
  | .get, ["user-agent"] =>
    match hashMapGet request.headers "User-Agent" with
    | some ua => .ok ⟨.ok200, request.version, .text ua⟩
    | none => .ok ⟨.notFound404, request.version, .empty⟩
  | .get, ["files", filename] =>
    match directory with
    | none => .ok ⟨.notFound404, request.version, .empty⟩
    | some dir =>
      match fs.read (pathJoin dir filename) with
      | none => .ok ⟨.notFound404, request.version, .empty⟩
      | some bytes =>
        match utf8Decode bytes with
        | some cs => .ok ⟨.ok200, request.version, .octetStream (String.mk cs)⟩
        | none => .ok ⟨.notFound404, request.version, .empty⟩
  | .post, ["files", filename] =>
    match request.body with
    | none => .error .missingBody
    | some content =>
      match directory with
      | none => .ok ⟨.notFound404, request.version, .empty⟩
      | some dir =>
        if fs.write (pathJoin dir filename) content then
          .ok ⟨.created201, request.version, .empty⟩
        else .error .ioError
  | _, _ =>
    .ok ⟨.notFound404, request.version, .empty⟩

/-- `(code, phrase)` for each status, from `Into<String>`. -/
def statusCodeAndPhrase : HttpStatusCode → Nat × String
  | .ok200 => (200, "Ok")
  | .created201 => (201, "Created")
  | .notFound404 => (404, "NotFound")
  | .internalError500 => (500, "InternalError")

/-- Rust `str::len`: the UTF-8 byte length of the string. -/
def rustStrLen (s : String) : Nat :=
  (utf8Encode s).length

/-- `Into<String> for HttpResponseBuilder`: serialize the status line,
then for non-empty content the `Content-Type` and `Content-Length`
headers, the blank line, and the content. -/
def responseToString (r : HttpResponseBuilder) : String :=
  match statusCodeAndPhrase r.status_code with
  | (code, phrase) =>
    let status := r.version ++ " " ++ toString code ++ " " ++ phrase ++ "\r\n"
    match r.content with
    | .empty => status ++ "\r\n"
    | .text content =>
      status ++ "Content-Type: text/plain\r\n" ++
        "Content-Length: " ++ toString (rustStrLen content) ++ "\r\n" ++
        "\r\n" ++ content
    | .octetStream content =>
      status ++ "Content-Type: application/octet-stream\r\n" ++
        "Content-Length: " ++ toString (rustStrLen content) ++ "\r\n" ++
        "\r\n" ++ content

/-- The `unwrap_or_else` in `stream_handler`: a router error becomes a
500 response carrying the request's version. -/
def handler_response (req : HttpRequest) (directory : Option String) (fs : Fs) :
    HttpResponseBuilder :=
  match route_request req directory fs with
  | .ok r => r
  | .error _ => ⟨.internalError500, req.version, .empty⟩

/-- What `stream_handler` does to the connection: write serialized
response bytes, or return the reader's error having written nothing, or
panic (inherited from the parser). -/
inductive HandlerOutcome
  | wrote (bytes : String)
  | errNoWrite (e : ReaderError)
  | panic
deriving DecidableEq, Repr

/-- `stream_handler` from the source: read the request (the `?` returns
the reader's error before anything is written), route it with the 500
fallback, serialize, write. -/
def stream_handler (stream : List Nat) (directory : Option String) (fs : Fs) :
    HandlerOutcome :=
  match reader_request stream with
  | .panic => .panic
  | .err e => .errNoWrite e
  | .ok req => .wrote (responseToString (handler_response req directory fs))

/-- A filesystem with no readable files and failing writes, for concrete
instantiations. -/
def fsNone : Fs where
  read := fun _ => none
  write := fun _ _ => false

/-- A filesystem whose only file is `d/f` with the single (non-UTF-8)
byte `0xFF`. -/
def fsNonUtf8 : Fs where
  read := fun p => if p = "d/f" then some [0xFF] else none
  write := fun _ _ => false

/-- A filesystem whose only file is `d/hello.txt` containing `Hello!`. -/
def fsHello : Fs where
  read := fun p => if p = "d/hello.txt" then some (utf8Encode "Hello!") else none
  write := fun _ _ => false

end HttpServerModel

open HttpServerModel

/-- C3: the source's `parse_http_request` executes `panic!()` on a request
whose method token is neither `GET` nor `POST` (here `DELETE`), instead of
returning a parse-failure value; the panic propagates through
`reader_request` and `stream_handler`, crashing the connection task. -/
theorem C3_unsupported_method_panics :
    parse_http_request ("DELETE / HTTP/1.1\r\nHost: a\r\n".toList) = .panic ∧
    stream_handler (utf8Encode "DELETE / HTTP/1.1\r\nHost: a\r\n\r\n") none fsNone = .panic := by
  constructor <;> rfl

/-- C1 counterexample: a connection whose request fails to parse (the
request line `GARBAGE` has no target token) makes `stream_handler` return
the reader's error having written nothing to the stream — no 500 (or any)
response is emitted, contradicting the claim. -/
theorem C1_counterexample :
    stream_handler (utf8Encode "GARBAGE\r\n\r\n") none fsNone =
      .errNoWrite .parseError := by
  rfl

/-- C1 amended: on a Request-Reader failure `stream_handler` propagates
the error and closes without writing any response; only when reading
succeeds does it always write exactly one response, with router errors
mapped to 500 by the `unwrap_or_else` fallback. -/
theorem C1_amended (stream : List Nat) (dir : Option String) (fs : Fs) :
    (∀ e, reader_request stream = .err e →
      stream_handler stream dir fs = .errNoWrite e) ∧
    (∀ req, reader_request stream = .ok req →
      stream_handler stream dir fs =
        .wrote (responseToString (handler_response req dir fs))) := by
  constructor
  · intro e he
    simp [stream_handler, he]
  · intro req hreq
    simp [stream_handler, hreq]

/-- C1 witness: a truncated body (Content-Length 5, two body bytes) is a
reader failure, and the handler closes the connection without writing. -/
theorem C1_witness :
    reader_request (utf8Encode "POST /files/x HTTP/1.1\r\nContent-Length: 5\r\n\r\nab") =
      .err .truncatedBody ∧
    stream_handler (utf8Encode "POST /files/x HTTP/1.1\r\nContent-Length: 5\r\n\r\nab")
        none fsNone = .errNoWrite .truncatedBody :=
  ⟨by rfl,
   (C1_amended (utf8Encode "POST /files/x HTTP/1.1\r\nContent-Length: 5\r\n\r\nab")
     none fsNone).1 .truncatedBody (by rfl)⟩

/-- C4 counterexample: a header line `User-Agent: foo bar` contains the
`": "` delimiter, yet parsing fails, because the source takes the value
with `non_whitespace` and then requires an immediate CRLF — the claim
that the entire remainder (spaces included) is stored as the value, and
that only a missing delimiter fails, is contradicted. -/
theorem C4_counterexample :
    parse_http_request ("GET / HTTP/1.1\r\nUser-Agent: foo bar\r\n".toList) = .err := by
  rfl

/-- C5 counterexample: a request whose single body byte `0xFF` is not
valid UTF-8 is rejected by `reader_request` itself with the
invalid-encoding error — the Reader does validate the body encoding
(via `String::from_utf8`) rather than storing raw bytes and deferring
validation to the Router. -/
theorem C5_counterexample :
    reader_request
        (utf8Encode "POST /files/a HTTP/1.1\r\nContent-Length: 1\r\n\r\n" ++ [0xFF]) =
      .err .invalidBodyEncoding := by
  rfl

/-- C5 amended: the Reader itself decodes the body as UTF-8 and stores it
as a string: with a present, numeric `Content-Length` and enough bytes,
invalid UTF-8 makes the body phase fail with `invalidBodyEncoding`, and
valid UTF-8 yields the decoded string as the body. -/
theorem C5_amended (headers : List (String × String)) (rest : List Nat)
    (lenStr : String) (n : Nat)
    (hcl : hashMapGet headers "Content-Length" = some lenStr)
    (hn : parseUsize lenStr = some n) (hlen : n ≤ rest.length) :
    (utf8Decode (rest.take n) = none →
      read_body headers rest = .error .invalidBodyEncoding) ∧
    (∀ cs, utf8Decode (rest.take n) = some cs →
      read_body headers rest = .ok (some (String.mk cs), rest.drop n)) := by
  constructor
  · intro hdec
    simp [read_body, hcl, hn, hlen, hdec]
  · intro cs hdec
    simp [read_body, hcl, hn, hlen, hdec]

/-- C5 witness: with `Content-Length: 1` and the single byte `0xFF`, the
body phase itself reports the invalid-encoding error. -/
theorem C5_witness :
    hashMapGet [("Content-Length", "1")] "Content-Length" = some "1" ∧
    parseUsize "1" = some 1 ∧
    read_body [("Content-Length", "1")] [0xFF] = .error .invalidBodyEncoding :=
  ⟨by rfl, by rfl,
   (C5_amended [("Content-Length", "1")] [0xFF] "1" 1 (by rfl) (by rfl)
     (by simp)).1 (by rfl)⟩

/-- C6 counterexample: a request line immediately followed by the empty
CRLF terminator (zero header lines) is rejected by the parser — `many1`
requires at least one header — contradicting the claim that it is
accepted with an empty header mapping. -/
theorem C6_counterexample :
    parse_http_request ("GET / HTTP/1.1\r\n".toList) = .err := by
  rfl

/-- C8: serializing `Response{200, Text("hi")}` yields the status line
followed by the header block `Content-Type: text/plain CRLF
Content-Length: 2 CRLF`, a blank line, and the body bytes `hi`;
re-parsing that header block with the source's header parser yields
`Content-Length` equal to `"2"`, which parses to `2`, the UTF-8 byte
length of `hi`, and the remaining stream decodes to the body `hi`. -/
theorem C8_roundtrip :
    responseToString ⟨.ok200, "HTTP/1.1", .text "hi"⟩ =
      "HTTP/1.1 200 Ok\r\n" ++ "Content-Type: text/plain\r\nContent-Length: 2\r\n" ++
        "\r\n" ++ "hi" ∧
    readHeaderBlock (utf8Encode (responseToString ⟨.ok200, "HTTP/1.1", .text "hi"⟩)) =
      ("HTTP/1.1 200 Ok\r\nContent-Type: text/plain\r\nContent-Length: 2\r\n",
        utf8Encode "hi") ∧
    many1_headers ("Content-Type: text/plain\r\nContent-Length: 2\r\n".toList) =
      .ok [] [("Content-Type", "text/plain"), ("Content-Length", "2")] ∧
    hashMapGet [("Content-Type", "text/plain"), ("Content-Length", "2")]
      "Content-Length" = some "2" ∧
    parseUsize "2" = some 2 ∧
    rustStrLen "hi" = 2 ∧
    utf8Decode (utf8Encode "hi") = some ('h' :: 'i' :: []) := by
  refine ⟨by rfl, by rfl, by rfl, by rfl, by rfl, by rfl, by rfl⟩

/-- Helper: `takeWhile` splits exactly at the first character failing `p`. -/
theorem takeWhile_append_sat (p : Char → Bool) (l rest : List Char)
    (hall : ∀ c ∈ l, p c = true)
    (hstop : ∀ c, rest.head? = some c → p c = false) :
    (l ++ rest).takeWhile p = l := by
  induction l with
  | nil =>
    cases rest with
    | nil => rfl
    | cons c r => simp [List.takeWhile_cons, hstop c rfl]
  | cons a l ih =>
    simp only [List.cons_append, List.takeWhile_cons, hall a (List.mem_cons_self a l),
      if_true]
    simp [ih (fun c hc => hall c (List.mem_cons_of_mem a hc))]

/-- Helper: `take_while1` on a nonempty satisfying prefix followed by a
failing character consumes exactly that prefix. -/
theorem takeWhile1_exact (p : Char → Bool) (l rest : List Char)
    (hne : l ≠ []) (hall : ∀ c ∈ l, p c = true)
    (hstop : ∀ c, rest.head? = some c → p c = false) :
    takeWhile1 p (l ++ rest) = .ok rest l := by
  unfold takeWhile1
  rw [takeWhile_append_sat p l rest hall hstop]
  cases l with
  | nil => exact absurd rfl hne
  | cons a l' => simp [List.drop_left]

/-- Helper: `dropWhile` is the identity when the first character fails `p`. -/
theorem dropWhile_head_false (p : Char → Bool) (l : List Char)
    (h : ∀ c, l.head? = some c → p c = false) :
    l.dropWhile p = l := by
  cases l with
  | nil => rfl
  | cons a l' => simp [List.dropWhile_cons, h a rfl]

/-- Helper: a non-whitespace character is neither space nor tab. -/
theorem space_tab_false_of_not_ws (c : Char) (h : rustIsWhitespace c = false) :
    (c == ' ' || c == '\t') = false := by
  by_cases h1 : c = ' '
  · subst h1; exact absurd h (by decide)
  · by_cases h2 : c = '\t'
    · subst h2; exact absurd h (by decide)
    · simp [h1, h2]

/-- Helper: the head of `l ++ rest` is in `l` when `l` is nonempty. -/
theorem head_append_mem (l rest : List Char) (hne : l ≠ []) :
    ∀ c, (l ++ rest).head? = some c → c ∈ l := by
  cases l with
  | nil => exact absurd rfl hne
  | cons a l' =>
    intro c hc
    simp only [List.cons_append, List.head?_cons, Option.some.injEq] at hc
    subst hc
    exact List.mem_cons_self a l'

/-- Helper: `space0` eats a single leading space when the next character
is not space or tab. -/
theorem space0_cons_space (rest : List Char)
    (h : ∀ c, rest.head? = some c → (c == ' ' || c == '\t') = false) :
    space0 (' ' :: rest) = rest := by
  unfold space0
  rw [List.dropWhile_cons]
  simp only [show ((' ' == ' ' || ' ' == '\t')) = true from rfl, if_true]
  exact dropWhile_head_false _ rest h

/-- Helper: `terminated(non_whitespace, space0)` on a token, one space,
and a rest not led by space/tab consumes the token and the space. -/
theorem tokenSpace0_exact (tok rest : List Char)
    (hne : tok ≠ []) (hall : ∀ c ∈ tok, rustIsWhitespace c = false)
    (hhead : ∀ c, rest.head? = some c → (c == ' ' || c == '\t') = false) :
    tokenSpace0 (tok ++ ' ' :: rest) = .ok rest tok := by
  unfold tokenSpace0 non_whitespace
  rw [takeWhile1_exact (fun c => !rustIsWhitespace c) tok (' ' :: rest) hne
      (fun c hc => by simp [hall c hc])
      (fun c hc => by
        simp only [List.head?_cons, Option.some.injEq] at hc
        subst hc
        decide)]
  simp only [space0_cons_space rest hhead]

/-- Helper: `non_whitespace` stops exactly at a CR. -/
theorem non_whitespace_before_cr (tok rest : List Char)
    (hne : tok ≠ []) (hall : ∀ c ∈ tok, rustIsWhitespace c = false) :
    non_whitespace (tok ++ '\r' :: rest) = .ok ('\r' :: rest) tok := by
  unfold non_whitespace
  exact takeWhile1_exact _ tok _ hne
    (fun c hc => by simp [hall c hc])
    (fun c hc => by
      simp only [List.head?_cons, Option.some.injEq] at hc
      subst hc
      decide)

/-- Helper: a two-character `tag` consumes exactly those two characters. -/
theorem tagChars_cons2 (a b : Char) (rest : List Char) :
    tagChars [a, b] (a :: b :: rest) = .ok rest () := by
  simp [tagChars, List.take, List.drop]

/-- C6 amended: a well-formed request line followed by nothing (the
Reader's line loop stops at the empty CRLF line, so zero header lines
leave exactly the request line as parser input) is a parse failure:
`many1` demands at least one header line. -/
theorem C6_amended (m r v : List Char)
    (hm : m ≠ []) (hmw : ∀ c ∈ m, rustIsWhitespace c = false)
    (hr : r ≠ []) (hrw : ∀ c ∈ r, rustIsWhitespace c = false)
    (hv : v ≠ []) (hvw : ∀ c ∈ v, rustIsWhitespace c = false) :
    parse_http_request (m ++ ' ' :: (r ++ ' ' :: (v ++ ['\r', '\n']))) = .err := by
  have h1 : ∀ c, (r ++ ' ' :: (v ++ ['\r', '\n'])).head? = some c →
      (c == ' ' || c == '\t') = false :=
    fun c hc => space_tab_false_of_not_ws c (hrw c (head_append_mem r _ hr c hc))
  have h2 : ∀ c, (v ++ ['\r', '\n']).head? = some c → (c == ' ' || c == '\t') = false :=
    fun c hc => space_tab_false_of_not_ws c (hvw c (head_append_mem v _ hv c hc))
  have hv' : non_whitespace (v ++ ['\r', '\n']) = .ok ('\r' :: ['\n']) v :=
    non_whitespace_before_cr v ['\n'] hv hvw
  simp only [parse_http_request, tokenSpace0_exact m _ hm hmw h1,
    tokenSpace0_exact r _ hr hrw h2, hv', tagChars_cons2]
  rfl

/-- C6 witness: `POST /x HTTP/1.0` followed directly by the header
terminator is rejected. -/
theorem C6_witness :
    parse_http_request ("POST /x HTTP/1.0\r\n".toList) = .err :=
  C6_amended "POST".toList "/x".toList "HTTP/1.0".toList
    (by decide) (by decide) (by decide) (by decide) (by decide) (by decide)

/-- C4 amended: a header line parses as everything before the first `:`
as the name, the exact `": "` delimiter, then a value that is a maximal
nonempty run of non-whitespace characters followed immediately by CRLF
(first conjunct); a line whose value contains whitespace — here an
internal space — is a parse failure even though it contains the `": "`
delimiter (second conjunct). -/
theorem C4_amended (name value v1 rest rest2 : List Char)
    (hn : name ≠ []) (hnc : ∀ c ∈ name, c ≠ ':')
    (hv : value ≠ []) (hvw : ∀ c ∈ value, rustIsWhitespace c = false)
    (hv1 : v1 ≠ []) (hv1w : ∀ c ∈ v1, rustIsWhitespace c = false) :
    parse_header (name ++ ':' :: ' ' :: (value ++ '\r' :: '\n' :: rest)) =
      .ok rest (String.mk name, String.mk value) ∧
    parse_header (name ++ ':' :: ' ' :: (v1 ++ ' ' :: rest2)) = .err := by
  have hname : ∀ (X : List Char), takeWhile1 (fun c => c != ':') (name ++ ':' :: X) =
      .ok (':' :: X) name := by
    intro X
    exact takeWhile1_exact _ name _ hn
      (fun c hc => by simp [hnc c hc])
      (fun c hc => by
        simp only [List.head?_cons, Option.some.injEq] at hc
        subst hc
        decide)
  constructor
  · have hval : non_whitespace (value ++ '\r' :: '\n' :: rest) =
        .ok ('\r' :: '\n' :: rest) value :=
      non_whitespace_before_cr value ('\n' :: rest) hv hvw
    simp only [parse_header, hname, tagChars_cons2, hval]
  · have hval1 : non_whitespace (v1 ++ ' ' :: rest2) = .ok (' ' :: rest2) v1 := by
      unfold non_whitespace
      exact takeWhile1_exact _ v1 _ hv1
        (fun c hc => by simp [hv1w c hc])
        (fun c hc => by
          simp only [List.head?_cons, Option.some.injEq] at hc
          subst hc
          decide)
    have htag : tagChars ['\r', '\n'] (' ' :: rest2) = .err := by
      unfold tagChars
      rw [if_neg]
      simp [List.take]
    simp only [parse_header, hname, tagChars_cons2, hval1, htag]

/-- C4 witness: `Host: example.com` parses to that name/value pair;
`Host: foo bar` (value with an internal space) fails. -/
theorem C4_witness :
    parse_header ("Host: example.com\r\nX".toList) =
      .ok ['X'] ("Host", "example.com") ∧
    parse_header ("Host: foo bar\r\n".toList) = .err :=
  ⟨(C4_amended "Host".toList "example.com".toList "foo".toList ['X'] "bar\r\n".toList
      (by decide) (by decide) (by decide) (by decide) (by decide) (by decide)).1,
   (C4_amended "Host".toList "example.com".toList "foo".toList ['X'] "bar\r\n".toList
      (by decide) (by decide) (by decide) (by decide) (by decide) (by decide)).2⟩

/-- Helper: every `Ok` result of `route_request` carries the request's
protocol version verbatim. -/
theorem route_request_version (req : HttpRequest) (dir : Option String) (fs : Fs)
    (r : HttpResponseBuilder) (h : route_request req dir fs = .ok r) :
    r.version = req.version := by
  unfold route_request at h
  repeat' split at h
  all_goals simp_all
  all_goals (cases h; rfl)

/-- C7: for every request and every routing outcome, the response's
protocol version equals the request's version: the 404 catch-all and the
500 internal-error fallback in `stream_handler` included (first
conjunct), and every successful router branch (second conjunct). -/
theorem C7_version_invariant (req : HttpRequest) (dir : Option String) (fs : Fs) :
    (handler_response req dir fs).version = req.version ∧
    ∀ r, route_request req dir fs = .ok r → r.version = req.version := by
  constructor
  · unfold handler_response
    split
    · exact route_request_version req dir fs _ (by assumption)
    · rfl
  · exact fun r h => route_request_version req dir fs r h

/-- C7 witness: instantiated at `GET /` with version `HTTP/1.1`. -/
theorem C7_witness :
    (handler_response ⟨.get, "/", "HTTP/1.1", [], none⟩ none fsNone).version =
      "HTTP/1.1" ∧
    (⟨.ok200, "HTTP/1.1", .empty⟩ : HttpResponseBuilder).version = "HTTP/1.1" :=
  ⟨(C7_version_invariant ⟨.get, "/", "HTTP/1.1", [], none⟩ none fsNone).1,
   (C7_version_invariant ⟨.get, "/", "HTTP/1.1", [], none⟩ none fsNone).2
     ⟨.ok200, "HTTP/1.1", .empty⟩ (by rfl)⟩

/-- Helper: shape of the serialized 200 `Text` response. -/
theorem responseToString_text (v body : String) :
    responseToString ⟨.ok200, v, .text body⟩ =
      v ++ " 200 Ok\r\nContent-Type: text/plain\r\nContent-Length: " ++
        toString (utf8Encode body).length ++ "\r\n\r\n" ++ body := by
  simp only [responseToString, statusCodeAndPhrase, rustStrLen]
  rw [show (toString (200 : Nat)) = "200" from rfl]
  apply String.ext
  simp [String.data_append]

/-- C9: every GET request whose target splits into `echo` followed by
`rest` is answered 200 with body the `rest` segments rejoined with `/`,
and the serialized response carries `Content-Type: text/plain` and a
`Content-Length` equal to the UTF-8 byte length of that body. -/
theorem C9_echo (req : HttpRequest) (dir : Option String) (fs : Fs) (rest : List String)
    (hm : req.method = .get)
    (hr : (splitOnSlash req.route).drop 1 = "echo" :: rest) :
    route_request req dir fs =
      .ok ⟨.ok200, req.version, .text (String.intercalate "/" rest)⟩ ∧
    responseToString ⟨.ok200, req.version, .text (String.intercalate "/" rest)⟩ =
      req.version ++ " 200 Ok\r\nContent-Type: text/plain\r\nContent-Length: " ++
        toString (utf8Encode (String.intercalate "/" rest)).length ++ "\r\n\r\n" ++
        String.intercalate "/" rest := by
  constructor
  · unfold route_request
    rw [hm, hr]
    rfl
  · exact responseToString_text req.version (String.intercalate "/" rest)

/-- C9 witness: `GET /echo/héllo` — the body `héllo` has five characters
but six UTF-8 bytes, and the emitted `Content-Length` is the byte count. -/
theorem C9_witness :
    route_request ⟨.get, "/echo/héllo", "HTTP/1.1", [], none⟩ none fsNone =
      .ok ⟨.ok200, "HTTP/1.1", .text (String.intercalate "/" ["héllo"])⟩ ∧
    responseToString ⟨.ok200, "HTTP/1.1", .text (String.intercalate "/" ["héllo"])⟩ =
      "HTTP/1.1" ++ " 200 Ok\r\nContent-Type: text/plain\r\nContent-Length: " ++
        toString (utf8Encode (String.intercalate "/" ["héllo"])).length ++ "\r\n\r\n" ++
        String.intercalate "/" ["héllo"] ∧
    (utf8Encode (String.intercalate "/" ["héllo"])).length = 6 ∧
    (String.intercalate "/" ["héllo"]).length = 5 :=
  ⟨(C9_echo ⟨.get, "/echo/héllo", "HTTP/1.1", [], none⟩ none fsNone ["héllo"]
      (by rfl) (by rfl)).1,
   (C9_echo ⟨.get, "/echo/héllo", "HTTP/1.1", [], none⟩ none fsNone ["héllo"]
      (by rfl) (by rfl)).2,
   by rfl, by rfl⟩

/-- Helper: `Char.ofNatAux` inverts `Char.toNat`. -/
theorem charOfNatAux_eq (m : Nat) (h : Nat.isValidChar m) (c : Char) (hm : m = c.toNat) :
    Char.ofNatAux m h = c := by
  subst hm
  rw [show Char.ofNatAux c.toNat h = Char.ofNat c.toNat from by
    unfold Char.ofNat
    rw [dif_pos h]]
  exact Char.ofNat_toNat c
/-- Helper: decoding the UTF-8 encoding of one char consumes exactly its
bytes and returns that char (the validation accepts every encoded
`Char`, since `Char` excludes surrogates and values above `0x10FFFF`). -/
theorem utf8DecodeStep_encode (c : Char) (rest : List Nat) :
    utf8DecodeStep (charUtf8Bytes c ++ rest) = some (c, rest) := by
  have hb : c.toNat < 0xD800 ∨ (0xDFFF < c.toNat ∧ c.toNat < 0x110000) := c.valid
  by_cases h1 : c.toNat < 0x80
  · rw [show charUtf8Bytes c = [c.toNat] from by simp [charUtf8Bytes, h1]]
    simp only [List.cons_append, List.nil_append, utf8DecodeStep]
    rw [dif_pos (⟨Or.inl (by omega), h1⟩ : Nat.isValidChar c.toNat ∧ c.toNat < 0x80)]
    exact congrArg (fun x => some (x, rest)) (charOfNatAux_eq _ _ c rfl)
  · by_cases h2 : c.toNat < 0x800
    · rw [show charUtf8Bytes c = [0xC0 + c.toNat / 64, 0x80 + c.toNat % 64] from by
        simp [charUtf8Bytes, h1, h2]]
      simp only [List.cons_append, List.nil_append, utf8DecodeStep]
      rw [dif_neg (fun hh => absurd hh.2 (by omega))]
      rw [if_neg (by omega), if_pos (show 0xC0 + c.toNat / 64 ≤ 0xDF by omega)]
      rw [if_pos (⟨by omega, by omega⟩ :
        0x80 ≤ 0x80 + c.toNat % 64 ∧ 0x80 + c.toNat % 64 ≤ 0xBF)]
      rw [dif_pos (show Nat.isValidChar
        ((0xC0 + c.toNat / 64 - 0xC0) * 64 + (0x80 + c.toNat % 64 - 0x80)) from
        Or.inl (by omega))]
      exact congrArg (fun x => some (x, rest)) (charOfNatAux_eq _ _ c (by omega))
    · by_cases h3 : c.toNat < 0x10000
      · rw [show charUtf8Bytes c =
            [0xE0 + c.toNat / 4096, 0x80 + (c.toNat / 64) % 64, 0x80 + c.toNat % 64] from by
          simp [charUtf8Bytes, h1, h2, h3]]
        simp only [List.cons_append, List.nil_append, utf8DecodeStep]
        rw [dif_neg (fun hh => absurd hh.2 (by omega))]
        rw [if_neg (by omega), if_neg (by omega),
          if_pos (show 0xE0 + c.toNat / 4096 ≤ 0xEF by omega)]
        by_cases hA : c.toNat < 0x1000
        · rw [if_pos (show ((0xE0 + c.toNat / 4096 : Nat) == 0xE0) = true by
            simp only [beq_iff_eq]; omega)]
          rw [if_neg (show ¬ ((0xE0 + c.toNat / 4096 : Nat) == 0xED) = true by
            simp only [beq_iff_eq]; omega)]
          rw [if_pos (⟨by omega, by omega, by omega, by omega⟩ :
            0xA0 ≤ 0x80 + (c.toNat / 64) % 64 ∧ 0x80 + (c.toNat / 64) % 64 ≤ 0xBF ∧
              0x80 ≤ 0x80 + c.toNat % 64 ∧ 0x80 + c.toNat % 64 ≤ 0xBF)]
          rw [dif_pos (show Nat.isValidChar
            ((0xE0 + c.toNat / 4096 - 0xE0) * 4096 + (0x80 + (c.toNat / 64) % 64 - 0x80) * 64 +
              (0x80 + c.toNat % 64 - 0x80)) from Or.inl (by omega))]
          exact congrArg (fun x => some (x, rest)) (charOfNatAux_eq _ _ c (by omega))
        · by_cases hB : 0xD000 ≤ c.toNat ∧ c.toNat < 0xE000
          · rw [if_neg (show ¬ ((0xE0 + c.toNat / 4096 : Nat) == 0xE0) = true by
              simp only [beq_iff_eq]; omega)]
            rw [if_pos (show ((0xE0 + c.toNat / 4096 : Nat) == 0xED) = true by
              simp only [beq_iff_eq]; omega)]
            rw [if_pos (⟨by omega, by omega, by omega, by omega⟩ :
              0x80 ≤ 0x80 + (c.toNat / 64) % 64 ∧ 0x80 + (c.toNat / 64) % 64 ≤ 0x9F ∧
                0x80 ≤ 0x80 + c.toNat % 64 ∧ 0x80 + c.toNat % 64 ≤ 0xBF)]
            rw [dif_pos (show Nat.isValidChar
              ((0xE0 + c.toNat / 4096 - 0xE0) * 4096 + (0x80 + (c.toNat / 64) % 64 - 0x80) * 64 +
                (0x80 + c.toNat % 64 - 0x80)) from Or.inl (by omega))]
            exact congrArg (fun x => some (x, rest)) (charOfNatAux_eq _ _ c (by omega))
          · rw [if_neg (show ¬ ((0xE0 + c.toNat / 4096 : Nat) == 0xE0) = true by
              simp only [beq_iff_eq]; omega)]
            rw [if_neg (show ¬ ((0xE0 + c.toNat / 4096 : Nat) == 0xED) = true by
              simp only [beq_iff_eq]; omega)]
            rw [if_pos (⟨by omega, by omega, by omega, by omega⟩ :
              0x80 ≤ 0x80 + (c.toNat / 64) % 64 ∧ 0x80 + (c.toNat / 64) % 64 ≤ 0xBF ∧
                0x80 ≤ 0x80 + c.toNat % 64 ∧ 0x80 + c.toNat % 64 ≤ 0xBF)]
            rw [dif_pos (show Nat.isValidChar
              ((0xE0 + c.toNat / 4096 - 0xE0) * 4096 + (0x80 + (c.toNat / 64) % 64 - 0x80) * 64 +
                (0x80 + c.toNat % 64 - 0x80)) from by simp only [Nat.isValidChar]; omega)]
            exact congrArg (fun x => some (x, rest)) (charOfNatAux_eq _ _ c (by omega))
      · rw [show charUtf8Bytes c =
            [0xF0 + c.toNat / 262144, 0x80 + (c.toNat / 4096) % 64,
              0x80 + (c.toNat / 64) % 64, 0x80 + c.toNat % 64] from by
          simp [charUtf8Bytes, h1, h2, h3]]
        have hmax : c.toNat < 0x110000 := by omega
        simp only [List.cons_append, List.nil_append, utf8DecodeStep]
        rw [dif_neg (fun hh => absurd hh.2 (by omega))]
        rw [if_neg (by omega), if_neg (by omega), if_neg (by omega),
          if_pos (show 0xF0 + c.toNat / 262144 ≤ 0xF4 by omega)]
        by_cases hA : c.toNat < 0x40000
        · rw [if_pos (show ((0xF0 + c.toNat / 262144 : Nat) == 0xF0) = true by
            simp only [beq_iff_eq]; omega)]
          rw [if_neg (show ¬ ((0xF0 + c.toNat / 262144 : Nat) == 0xF4) = true by
            simp only [beq_iff_eq]; omega)]
          rw [if_pos (⟨by omega, by omega, by omega, by omega, by omega, by omega⟩ :
            0x90 ≤ 0x80 + (c.toNat / 4096) % 64 ∧ 0x80 + (c.toNat / 4096) % 64 ≤ 0xBF ∧
              0x80 ≤ 0x80 + (c.toNat / 64) % 64 ∧ 0x80 + (c.toNat / 64) % 64 ≤ 0xBF ∧
              0x80 ≤ 0x80 + c.toNat % 64 ∧ 0x80 + c.toNat % 64 ≤ 0xBF)]
          rw [dif_pos (show Nat.isValidChar
            ((0xF0 + c.toNat / 262144 - 0xF0) * 262144 + (0x80 + (c.toNat / 4096) % 64 - 0x80) * 4096 +
              (0x80 + (c.toNat / 64) % 64 - 0x80) * 64 + (0x80 + c.toNat % 64 - 0x80)) from by
            simp only [Nat.isValidChar]; omega)]
          exact congrArg (fun x => some (x, rest)) (charOfNatAux_eq _ _ c (by omega))
        · by_cases hB : 0x100000 ≤ c.toNat
          · rw [if_neg (show ¬ ((0xF0 + c.toNat / 262144 : Nat) == 0xF0) = true by
              simp only [beq_iff_eq]; omega)]
            rw [if_pos (show ((0xF0 + c.toNat / 262144 : Nat) == 0xF4) = true by
              simp only [beq_iff_eq]; omega)]
            rw [if_pos (⟨by omega, by omega, by omega, by omega, by omega, by omega⟩ :
              0x80 ≤ 0x80 + (c.toNat / 4096) % 64 ∧ 0x80 + (c.toNat / 4096) % 64 ≤ 0x8F ∧
                0x80 ≤ 0x80 + (c.toNat / 64) % 64 ∧ 0x80 + (c.toNat / 64) % 64 ≤ 0xBF ∧
                0x80 ≤ 0x80 + c.toNat % 64 ∧ 0x80 + c.toNat % 64 ≤ 0xBF)]
            rw [dif_pos (show Nat.isValidChar
              ((0xF0 + c.toNat / 262144 - 0xF0) * 262144 + (0x80 + (c.toNat / 4096) % 64 - 0x80) * 4096 +
                (0x80 + (c.toNat / 64) % 64 - 0x80) * 64 + (0x80 + c.toNat % 64 - 0x80)) from by
              simp only [Nat.isValidChar]; omega)]
            exact congrArg (fun x => some (x, rest)) (charOfNatAux_eq _ _ c (by omega))
          · rw [if_neg (show ¬ ((0xF0 + c.toNat / 262144 : Nat) == 0xF0) = true by
              simp only [beq_iff_eq]; omega)]
            rw [if_neg (show ¬ ((0xF0 + c.toNat / 262144 : Nat) == 0xF4) = true by
              simp only [beq_iff_eq]; omega)]
            rw [if_pos (⟨by omega, by omega, by omega, by omega, by omega, by omega⟩ :
              0x80 ≤ 0x80 + (c.toNat / 4096) % 64 ∧ 0x80 + (c.toNat / 4096) % 64 ≤ 0xBF ∧
                0x80 ≤ 0x80 + (c.toNat / 64) % 64 ∧ 0x80 + (c.toNat / 64) % 64 ≤ 0xBF ∧
                0x80 ≤ 0x80 + c.toNat % 64 ∧ 0x80 + c.toNat % 64 ≤ 0xBF)]
            rw [dif_pos (show Nat.isValidChar
              ((0xF0 + c.toNat / 262144 - 0xF0) * 262144 + (0x80 + (c.toNat / 4096) % 64 - 0x80) * 4096 +
                (0x80 + (c.toNat / 64) % 64 - 0x80) * 64 + (0x80 + c.toNat % 64 - 0x80)) from by
              simp only [Nat.isValidChar]; omega)]
            exact congrArg (fun x => some (x, rest)) (charOfNatAux_eq _ _ c (by omega))

/-- Helper: the encoding of a char is never empty. -/
theorem charUtf8Bytes_ne_nil (c : Char) : charUtf8Bytes c ≠ [] := by
  simp only [charUtf8Bytes]
  split_ifs <;> simp

/-- Helper: unfolding of `utf8EncodeList` on a cons. -/
theorem utf8EncodeList_cons (c : Char) (cs : List Char) :
    utf8EncodeList (c :: cs) = charUtf8Bytes c ++ utf8EncodeList cs := rfl

/-- Helper: unfolding of `utf8DecodeGo` on positive fuel and a cons. -/
theorem utf8DecodeGo_cons (fuel : Nat) (b : Nat) (l : List Nat) :
    utf8DecodeGo (fuel + 1) (b :: l) =
      match utf8DecodeStep (b :: l) with
      | none => none
      | some (c, rest) => (utf8DecodeGo fuel rest).map (fun cs => c :: cs) := rfl

/-- Helper: with enough fuel the decoding loop inverts the encoder. -/
theorem utf8DecodeGo_encodeList (cs : List Char) :
    ∀ fuel, (utf8EncodeList cs).length ≤ fuel →
      utf8DecodeGo fuel (utf8EncodeList cs) = some cs := by
  induction cs with
  | nil => intro fuel _; cases fuel <;> rfl
  | cons c cs ih =>
    intro fuel hf
    obtain ⟨b, bs, hbbs⟩ := List.exists_cons_of_ne_nil (charUtf8Bytes_ne_nil c)
    have hlen : (charUtf8Bytes c).length + (utf8EncodeList cs).length ≤ fuel := by
      rw [utf8EncodeList_cons, List.length_append] at hf
      omega
    have hpos : 1 ≤ (charUtf8Bytes c).length := by
      rw [hbbs]; simp
    cases fuel with
    | zero => omega
    | succ f =>
      rw [utf8EncodeList_cons, hbbs, List.cons_append, utf8DecodeGo_cons,
        ← List.cons_append, ← hbbs, utf8DecodeStep_encode c (utf8EncodeList cs)]
      show (utf8DecodeGo f (utf8EncodeList cs)).map (fun l => c :: l) = some (c :: cs)
      rw [ih f (by omega)]
      rfl

/-- Helper: `String::from_utf8` of the UTF-8 encoding returns the
original characters. -/
theorem utf8Decode_encodeList (cs : List Char) :
    utf8Decode (utf8EncodeList cs) = some cs :=
  utf8DecodeGo_encodeList cs _ (Nat.le_refl _)

/-- Helper: `Char.ofNatAux` evaluates back to its code point. -/
theorem toNat_ofNatAux (m : Nat) (h : Nat.isValidChar m) :
    (Char.ofNatAux m h).toNat = m := rfl

/-- Helper: any successful decode step re-encodes to exactly the bytes it
consumed (the overlong/surrogate checks make UTF-8 a prefix code). -/
theorem utf8DecodeStep_inv (bs : List Nat) (c : Char) (rest : List Nat)
    (h : utf8DecodeStep bs = some (c, rest)) :
    bs = charUtf8Bytes c ++ rest := by
  match bs with
  | [] => exact absurd h (by simp [utf8DecodeStep])
  | b0 :: tl =>
    simp only [utf8DecodeStep] at h
    repeat' split at h
    all_goals first
      | exact Option.noConfusion h
      | (simp only [Option.some.injEq, Prod.mk.injEq] at h
         obtain ⟨hc, hrest⟩ := h
         subst hrest
         subst hc
         simp only [charUtf8Bytes, toNat_ofNatAux]
         simp only [Nat.isValidChar, beq_iff_eq] at *
         split_ifs <;>
           simp only [List.cons_append, List.nil_append, List.cons.injEq,
             eq_self_iff_true, and_true] <;>
           omega)

/-- Helper: any successful run of the decoding loop re-encodes to the
original byte list. -/
theorem utf8DecodeGo_inv : ∀ (fuel : Nat) (bs : List Nat) (cs : List Char),
    utf8DecodeGo fuel bs = some cs → utf8EncodeList cs = bs := by
  intro fuel
  induction fuel with
  | zero =>
    intro bs cs h
    cases bs with
    | nil =>
      simp only [utf8DecodeGo, Option.some.injEq] at h
      subst h
      rfl
    | cons b l => exact Option.noConfusion h
  | succ f ih =>
    intro bs cs h
    cases bs with
    | nil =>
      simp only [utf8DecodeGo, Option.some.injEq] at h
      subst h
      rfl
    | cons b l =>
      rw [utf8DecodeGo_cons] at h
      cases hstep : utf8DecodeStep (b :: l) with
      | none => rw [hstep] at h; exact Option.noConfusion h
      | some pr =>
        obtain ⟨c, rest⟩ := pr
        rw [hstep] at h
        change (utf8DecodeGo f rest).map (fun x => c :: x) = some cs at h
        cases hgo : utf8DecodeGo f rest with
        | none =>
          rw [hgo] at h
          exact Option.noConfusion h
        | some cs' =>
          rw [hgo] at h
          simp only [Option.map_some', Option.some.injEq] at h
          subst h
          rw [utf8EncodeList_cons, ih rest cs' hgo]
          exact (utf8DecodeStep_inv (b :: l) c rest hstep).symm

/-- Helper: a file or body that `String::from_utf8` accepts re-serializes
to exactly its original raw bytes. -/
theorem utf8Decode_inv (bs : List Nat) (cs : List Char)
    (h : utf8Decode bs = some cs) : utf8EncodeList cs = bs :=
  utf8DecodeGo_inv bs.length bs cs h

/-- C2 counterexample: with directory `d` configured and the file `f`
existing under it with raw (non-UTF-8) content `[0xFF]`, `GET /files/f`
answers 404 with empty body — not 200 with the file's bytes — because
the source reads the file with `read_to_string`, which fails on invalid
UTF-8, and that failure is mapped to 404. -/
theorem C2_counterexample :
    route_request ⟨.get, "/files/f", "HTTP/1.1", [], none⟩ (some "d") fsNonUtf8 =
      .ok ⟨.notFound404, "HTTP/1.1", .empty⟩ ∧
    (fsNonUtf8.read (pathJoin "d" "f") = some [0xFF]) := by
  constructor <;> rfl

/-- C2 amended: `GET /files/<name>` with a configured directory answers
200 `application/octet-stream` with body equal to the file's raw bytes
only when those bytes are valid UTF-8 (`read_to_string`); the re-encoded
body equals the raw bytes exactly.  An absent file, or no configured
directory, answers 404 with empty body; a file `read_to_string` cannot
decode also answers 404. -/
theorem C2_amended (req : HttpRequest) (dir : String) (fs : Fs) (fname : String)
    (bytes : List Nat) (cs : List Char)
    (hm : req.method = .get)
    (hr : (splitOnSlash req.route).drop 1 = ["files", fname]) :
    (fs.read (pathJoin dir fname) = some bytes → utf8Decode bytes = some cs →
      route_request req (some dir) fs =
        .ok ⟨.ok200, req.version, .octetStream (String.mk cs)⟩ ∧
      utf8Encode (String.mk cs) = bytes) ∧
    (fs.read (pathJoin dir fname) = none →
      route_request req (some dir) fs = .ok ⟨.notFound404, req.version, .empty⟩) ∧
    route_request req none fs = .ok ⟨.notFound404, req.version, .empty⟩ := by
  refine ⟨fun hread hdec => ⟨?_, ?_⟩, fun hread => ?_, ?_⟩
  · unfold route_request
    rw [hm, hr]
    simp only [hread, hdec]
  · exact utf8Decode_inv bytes cs hdec
  · unfold route_request
    rw [hm, hr]
    simp only [hread]
  · unfold route_request
    rw [hm, hr]
    rfl

/-- C2 witness: the file `d/hello.txt` containing `Hello!` is served as
200 octet-stream with exactly those bytes; without a configured
directory the same request is 404. -/
theorem C2_witness :
    route_request ⟨.get, "/files/hello.txt", "HTTP/1.1", [], none⟩ (some "d") fsHello =
      .ok ⟨.ok200, "HTTP/1.1", .octetStream (String.mk "Hello!".toList)⟩ ∧
    utf8Encode (String.mk "Hello!".toList) = utf8Encode "Hello!" ∧
    route_request ⟨.get, "/files/hello.txt", "HTTP/1.1", [], none⟩ none fsHello =
      .ok ⟨.notFound404, "HTTP/1.1", .empty⟩ :=
  ⟨((C2_amended ⟨.get, "/files/hello.txt", "HTTP/1.1", [], none⟩ "d" fsHello "hello.txt"
      (utf8Encode "Hello!") "Hello!".toList (by rfl) (by rfl)).1 (by rfl) (by rfl)).1,
   ((C2_amended ⟨.get, "/files/hello.txt", "HTTP/1.1", [], none⟩ "d" fsHello "hello.txt"
      (utf8Encode "Hello!") "Hello!".toList (by rfl) (by rfl)).1 (by rfl) (by rfl)).2,
   (C2_amended ⟨.get, "/files/hello.txt", "HTTP/1.1", [], none⟩ "d" fsHello "hello.txt"
      (utf8Encode "Hello!") "Hello!".toList (by rfl) (by rfl)).2.2⟩

/-- Helper: the UTF-8 encoder is an append homomorphism. -/
theorem utf8EncodeList_append (a b : List Char) :
    utf8EncodeList (a ++ b) = utf8EncodeList a ++ utf8EncodeList b := by
  induction a with
  | nil => rfl
  | cons c l ih =>
    simp only [List.cons_append, utf8EncodeList_cons, ih, List.append_assoc]

/-- Helper: `read_line` consumes exactly up to and including the first
newline byte. -/
theorem readLineBytes_exact (pre rest : List Nat) (hpre : 10 ∉ pre) :
    readLineBytes (pre ++ 10 :: rest) = (pre ++ [10], rest) := by
  induction pre with
  | nil => simp [readLineBytes]
  | cons b l ih =>
    have hb : ¬ b = 10 := fun hb => hpre (by simp [hb])
    have hl : 10 ∉ l := fun hm => hpre (List.mem_cons_of_mem b hm)
    simp [readLineBytes, hb, ih hl]

/-- Helper: the newline byte occurs in a char's UTF-8 encoding only for
`\n` itself (continuation and lead bytes are all `≥ 0x80`). -/
theorem ten_not_mem_charUtf8 (c : Char) (hc : c ≠ '\n') : 10 ∉ charUtf8Bytes c := by
  have hn : c.toNat ≠ 10 := fun h => hc (by rw [← Char.ofNat_toNat c, h])
  simp only [charUtf8Bytes]
  split_ifs
  all_goals simp
  all_goals omega

/-- Helper: an encoded string without `\n` contains no newline byte. -/
theorem ten_not_mem_encodeList (w : List Char) (hw : '\n' ∉ w) :
    10 ∉ utf8EncodeList w := by
  induction w with
  | nil => simp [utf8EncodeList]
  | cons c l ih =>
    rw [utf8EncodeList_cons]
    intro hmem
    rcases List.mem_append.mp hmem with h | h
    · exact ten_not_mem_charUtf8 c (fun hc => hw (hc ▸ List.mem_cons_self c l)) h
    · exact ih (fun hm => hw (List.mem_cons_of_mem c hm)) h

/-- Helper: unfolding of the header-line loop on positive fuel and a
nonempty stream. -/
theorem readHeaderLoop_cons (fuel : Nat) (b : Nat) (s : List Nat) (acc : String) :
    readHeaderLoop (fuel + 1) (b :: s) acc =
      match readLineBytes (b :: s) with
      | (lineBytes, rest) =>
        match utf8Decode lineBytes with
        | none => (acc, rest)
        | some cs =>
          if trimIsEmpty (String.mk cs) then (acc, rest)
          else readHeaderLoop fuel rest (acc ++ String.mk cs) := rfl

/-- C10: at any point of the header scan (any accumulator, any remaining
fuel), a line made only of whitespace characters — the empty CRLF line
included — stops the loop: the accumulated block is returned unchanged
(the blank line is never included) and the stream position is just past
that line. -/
theorem C10_blank_line_terminates (w : List Char) (rest : List Nat) (acc : String)
    (fuel : Nat)
    (hw : ∀ c ∈ w, rustIsWhitespace c = true) (hnl : '\n' ∉ w) :
    readHeaderLoop (fuel + 1) (utf8EncodeList (w ++ ['\n']) ++ rest) acc = (acc, rest) := by
  have henc : utf8EncodeList (w ++ ['\n']) = utf8EncodeList w ++ [10] := by
    rw [utf8EncodeList_append]
    rfl
  have hline : readLineBytes (utf8EncodeList (w ++ ['\n']) ++ rest) =
      (utf8EncodeList w ++ [10], rest) := by
    rw [henc, List.append_assoc]
    exact readLineBytes_exact (utf8EncodeList w) rest (ten_not_mem_encodeList w hnl)
  have hdec : utf8Decode (utf8EncodeList w ++ [10]) = some (w ++ ['\n']) := by
    rw [← henc]
    exact utf8Decode_encodeList (w ++ ['\n'])
  have htrim : trimIsEmpty (String.mk (w ++ ['\n'])) = true := by
    show (w ++ ['\n']).all rustIsWhitespace = true
    rw [List.all_eq_true]
    intro c hc
    rcases List.mem_append.mp hc with h | h
    · exact hw c h
    · simp only [List.mem_singleton] at h
      subst h
      decide
  have hcons : ∃ b s, utf8EncodeList (w ++ ['\n']) ++ rest = b :: s := by
    rw [henc, List.append_assoc]
    cases hE : utf8EncodeList w with
    | nil => exact ⟨10, rest, rfl⟩
    | cons b bs => exact ⟨b, bs ++ (10 :: rest), rfl⟩
  obtain ⟨b, s, hbs⟩ := hcons
  rw [hbs, readHeaderLoop_cons, ← hbs, hline]
  simp only [hdec, htrim, if_true]

/-- C10 witness: the line made of three spaces and CR (i.e. `\"   \\r\\n\"`)
terminates the header block, leaving the rest of the stream unread. -/
theorem C10_witness :
    readHeaderLoop 10
        (utf8EncodeList ([' ', ' ', ' ', '\r'] ++ ['\n']) ++ utf8Encode "GET") "" =
      ("", utf8Encode "GET") :=
  C10_blank_line_terminates [' ', ' ', ' ', '\r'] (utf8Encode "GET") "" 9
    (by decide) (by decide)
